import Mathlib

/-!
Verification of the `data_loader` crate of LLMs-from-scratch-rs
(src/lib/data_loader/src/lib.rs): a shallow embedding of `Dataset`,
the `DataLoader` worker drain loop, the batch materialization, the
channel-send/unwrap step, and the windowing function
`gen_rnn_train_data`, together with proofs of the spec's testable
properties about them.
-/

namespace DataLoaderSpec

/-- Embeds `Dataset<T>` (lib.rs lines 8-24): an immutable vector of items. -/
structure Dataset (T : Type) where
  data : List T
deriving DecidableEq

/-- Embeds `Dataset::new` (lib.rs line 13). -/
def Dataset.new {T : Type} (data : List T) : Dataset T :=
  ⟨data⟩

/-- Embeds `Dataset::len` (lib.rs line 17). -/
def Dataset.len {T : Type} (d : Dataset T) : Nat :=
  d.data.length

/-- Embeds `Dataset::get` (lib.rs line 21): `&self.data[index]`.  Rust's
indexing panics when `index >= len`; the panic is modeled by `none`. -/
def Dataset.get {T : Type} (d : Dataset T) (index : Nat) : Option T :=
  d.data[index]?

/-- Embeds the worker loop of `DataLoader::new` (lib.rs lines 55-78) as a
sequential drain of the shared index queue `q`.  Each loop iteration is one
critical section: under the lock the worker checks
`indices.len() < batch_size` and breaks when `drop_last || indices.is_empty()`
holds, otherwise drains `0..min(batch_size, len)` from the front; after the
lock is released an empty drained slice also breaks.  Because every critical
section is atomic and always drains from the *front* of the queue, the k-th
drain of the session returns the same indices no matter which worker performs
it or how the workers interleave, so the emitted batches (as a sequence of
index slices, up to channel arrival order) are those of this sequential
recursion.  The first argument is fuel; `q.length` steps always suffice
(`workerRunAux_congr` below), and the wrapper `workerRun` supplies them. -/
def workerRunAux (batch_size : Nat) (drop_last : Bool) : Nat → List Nat → List (List Nat)
  | 0, _ => []
  | fuel + 1, q =>
    if q.length < batch_size ∧ (drop_last = true ∨ q = []) then []
    else
      if q.take (min batch_size q.length) = [] then []
      else q.take (min batch_size q.length) ::
        workerRunAux batch_size drop_last fuel (q.drop (min batch_size q.length))

/-- The sequence of index batches drained from queue `q` by the worker pool of
`DataLoader::new` (lib.rs lines 55-78); see `workerRunAux`. -/
def workerRun (batch_size : Nat) (drop_last : Bool) (q : List Nat) : List (List Nat) :=
  workerRunAux batch_size drop_last q.length q

/-- Embeds `DataLoader::new` (lib.rs lines 32-89).  The constructor returns
`Self` unconditionally: it performs no validation of `batch_size` whatsoever
and has no error path in its signature.  Its observable output is the
collection of index batches the worker pool emits.  The `shuffle` flag picks
a random permutation of `0..dataset.len()` for the initial queue, so the
post-shuffle queue is modeled as an explicit argument `q` (theorems constrain
it by `q.Perm (List.range len)`; with `shuffle=false` it is exactly
`List.range len`).  `num_workers` only decides which thread performs each
atomic drain and thus does not affect the drained slices; see `workerRun`. -/
def DataLoader.new (q : List Nat) (batch_size : Nat) (drop_last : Bool) : List (List Nat) :=
  workerRun batch_size drop_last q

/-- Embeds the batch materialization (lib.rs lines 72-75):
`batch_indices.into_iter().map(|i| dataset.get(i).clone()).collect()`.
A failing `get` (out-of-range index) is a panic, modeled by `none`. -/
def materializeBatch {T : Type} (d : Dataset T) : List Nat → Option (List T)
  | [] => some []
  | i :: rest =>
    match d.get i with
    | none => none
    | some t =>
      match materializeBatch d rest with
      | none => none
      | some ts => some (t :: ts)

/-- Embeds crossbeam's `Sender::send` (used at lib.rs line 77): the send
returns `Err` carrying the batch back exactly when every receiver has been
dropped, and `Ok(())` otherwise. -/
def channelSend {α : Type} (receiverAlive : Bool) (batch : α) : Except α Unit :=
  if receiverAlive then Except.ok () else Except.error batch

/-- Embeds line 77 of lib.rs, `sender.send(batch).unwrap()`: the worker calls
`unwrap` on the send result, so an `Err` (receiver dropped) is a panic,
modeled by `none`; a successful send is `some ()`. -/
def workerSend {α : Type} (receiverAlive : Bool) (batch : α) : Option Unit :=
  match channelSend receiverAlive batch with
  | Except.ok u => some u
  | Except.error _ => none

/-- Embeds `impl Drop for DataLoader` (lib.rs lines 98-105): each worker
handle is joined with `handle.join().unwrap()`, so a panicked worker
(outcome `none`) re-raises the panic in the caller. -/
def loaderDropJoin : List (Option Unit) → Option Unit
  | [] => some ()
  | some _ :: rest => loaderDropJoin rest
  | none :: _ => none

/-- Embeds `TrainData<T>` (lib.rs lines 118-122). -/
structure TrainData (T : Type) where
  feature : List T
  label : List T
deriving DecidableEq

/-- Outcome of running `gen_rnn_train_data`: a normal return, a panic
(the `items.len() - 1` underflow on an empty input), or fuel exhaustion,
which models non-termination of the source loop. -/
inductive RnnResult (T : Type) where
  | ok : List (TrainData T) → RnnResult T
  | panicked : RnnResult T
  | timeout : RnnResult T
deriving DecidableEq

/-- Embeds the loop of `gen_rnn_train_data` (lib.rs lines 129-146).  State is
`start_pos` (`end_pos` is recomputed as `start_pos + batch_size` on entry,
exactly as the source maintains it) and the accumulated output.  One unit of
fuel is one loop iteration; exhausted fuel (`timeout`) models a loop that
never breaks.  The source's break test is `end_pos > items.len() - 1` with
`usize` subtraction, which panics when `items.len() = 0`; otherwise, when the
test fails, both slices `items[start_pos..end_pos]` and
`items[start_pos+1..end_pos+1]` are in bounds (since
`end_pos <= items.len() - 1`) and are `drop`/`take` of the item list. -/
def genRnnLoop {T : Type} (items : List T) (batch_size stride : Nat) :
    Nat → Nat → List (TrainData T) → RnnResult T
  | 0, _, _ => RnnResult.timeout
  | fuel + 1, start_pos, acc =>
    if items.length = 0 then RnnResult.panicked
    else if start_pos + batch_size > items.length - 1 then RnnResult.ok acc
    else
      genRnnLoop items batch_size stride fuel (start_pos + stride)
        (acc ++ [⟨(items.drop start_pos).take batch_size,
                 (items.drop (start_pos + 1)).take batch_size⟩])

/-- Embeds `gen_rnn_train_data` (lib.rs lines 125-147): runs the loop from
`start_pos = 0` with an empty accumulator.  `fuel` bounds the number of loop
iterations; `items.length + 1` always suffices when `stride >= 1`. -/
def genRnnTrainData {T : Type} (items : List T) (batch_size stride fuel : Nat) : RnnResult T :=
  genRnnLoop items batch_size stride fuel 0 []

/-- The source loop of `gen_rnn_train_data` diverges on the given arguments:
every fuel bound is exhausted before the loop breaks, i.e. no number of loop
iterations reaches a `break` (or the panic branch). -/
def genRnnDiverges {T : Type} (items : List T) (batch_size stride : Nat) : Prop :=
  ∀ fuel : Nat, genRnnTrainData items batch_size stride fuel = RnnResult.timeout

/-- Modelled from the spec (section 4.5) and the claim's formula: the number
of emitted windows, i.e. the number of `k` with `k*s + w < N` (for `s >= 1`).
-/
def numWindows (N w s : Nat) : Nat :=
  if w < N then (N - w - 1) / s + 1 else 0

/-- Modelled from the spec (section 4.5): the `k`-th pair has
`feature = items[k*s .. k*s+w)` and `label = items[k*s+1 .. k*s+w+1)`,
for every `k` with `k*s + w < N`. -/
def specWindowPairs {T : Type} (items : List T) (w s : Nat) : List (TrainData T) :=
  (List.range (numWindows items.length w s)).map fun k =>
    ⟨(items.drop (k * s)).take w, (items.drop (k * s + 1)).take w⟩

/-- Generalization of `numWindows` to windows whose start is at least
`start`: the number of `k` with `start + k*s + w < N`, used to state the
loop invariant of `genRnnLoop`. -/
def numWindowsFrom (N w s start : Nat) : Nat :=
  if start + w < N then (N - w - 1 - start) / s + 1 else 0

/-- The window pair starting at position `pos`. -/
def pairAt {T : Type} (items : List T) (w pos : Nat) : TrainData T :=
  ⟨(items.drop pos).take w, (items.drop (pos + 1)).take w⟩

/-- The pairs the spec formula emits for window starts
`start, start + s, start + 2*s, ...`. -/
def specFrom {T : Type} (items : List T) (w s start : Nat) : List (TrainData T) :=
  (List.range (numWindowsFrom items.length w s start)).map fun k =>
    pairAt items w (start + k * s)

/-! Basic facts about the worker drain loop. -/

theorem workerRunAux_nil (bs : Nat) (dl : Bool) (fuel : Nat) :
    workerRunAux bs dl fuel [] = [] := by
  cases fuel with
  | zero => rfl
  | succ f => simp [workerRunAux]

theorem workerQueue_take_min (bs : Nat) (q : List Nat) :
    q.take (min bs q.length) = q.take bs := by
  rw [← List.take_take, List.take_length]

theorem workerQueue_drop_min (bs : Nat) (q : List Nat) :
    q.drop (min bs q.length) = q.drop bs := by
  rcases le_total bs q.length with h | h
  · rw [min_eq_left h]
  · rw [min_eq_right h, List.drop_length, List.drop_eq_nil_of_le h]

theorem workerRunAux_congr (bs : Nat) (dl : Bool) :
    ∀ (f₁ f₂ : Nat) (q : List Nat), q.length ≤ f₁ → q.length ≤ f₂ →
      workerRunAux bs dl f₁ q = workerRunAux bs dl f₂ q := by
  intro f₁
  induction f₁ with
  | zero =>
    intro f₂ q h₁ h₂
    have hq : q = [] := List.eq_nil_of_length_eq_zero (by omega)
    subst hq
    rw [workerRunAux_nil, workerRunAux_nil]
  | succ g₁ ih =>
    intro f₂ q h₁ h₂
    cases q with
    | nil => rw [workerRunAux_nil, workerRunAux_nil]
    | cons a l =>
      simp only [List.length_cons] at h₁ h₂
      obtain ⟨g₂, rfl⟩ : ∃ g, f₂ = g + 1 := ⟨f₂ - 1, by omega⟩
      simp only [workerRunAux]
      rw [workerQueue_take_min, workerQueue_drop_min]
      split
      · rfl
      · split
        · rfl
        next hne =>
          rw [List.take_eq_nil_iff] at hne
          push_neg at hne
          obtain ⟨hbs0, -⟩ := hne
          congr 1
          apply ih
          · simp only [List.length_drop, List.length_cons]; omega
          · simp only [List.length_drop, List.length_cons]; omega

theorem workerRun_nil (bs : Nat) (dl : Bool) : workerRun bs dl [] = [] := rfl

/-- Unfolding equation for `workerRun`: one critical section of the worker
loop of lib.rs lines 55-78, with the saturating `min` of the drain range
already simplified away. -/
theorem workerRun_eq (bs : Nat) (dl : Bool) (q : List Nat) :
    workerRun bs dl q =
      if q.length < bs ∧ (dl = true ∨ q = []) then []
      else if q.take bs = [] then []
      else q.take bs :: workerRun bs dl (q.drop bs) := by
  cases q with
  | nil =>
    rw [workerRun_nil]
    simp
  | cons a l =>
    show workerRunAux bs dl (l.length + 1) (a :: l) = _
    simp only [workerRunAux]
    rw [workerQueue_take_min, workerQueue_drop_min]
    split
    · rfl
    · split
      · rfl
      next hne =>
        rw [List.take_eq_nil_iff] at hne
        push_neg at hne
        congr 1
        obtain ⟨hbs0, -⟩ := hne
        exact workerRunAux_congr bs dl l.length ((a :: l).drop bs).length ((a :: l).drop bs)
          (by simp only [List.length_drop, List.length_cons]; omega) le_rfl

theorem workerRun_zero_batch (dl : Bool) (q : List Nat) :
    workerRun 0 dl q = [] := by
  rw [workerRun_eq]
  simp

/-- With `drop_last = false` the drained batches concatenate back to the
whole queue. -/
theorem workerRun_flatten_no_drop (bs : Nat) (hbs : 1 ≤ bs) (q : List Nat) :
    (workerRun bs false q).flatten = q := by
  rw [workerRun_eq]
  rcases eq_or_ne q [] with hq | hq
  · subst hq; simp
  · have hpos : 0 < q.length := List.length_pos.mpr hq
    rw [if_neg (by rintro ⟨-, h | h⟩ <;> simp_all)]
    rw [if_neg (by rw [List.take_eq_nil_iff]; push_neg; exact ⟨by omega, hq⟩)]
    rw [List.flatten_cons, workerRun_flatten_no_drop bs hbs (q.drop bs),
      List.take_append_drop]
termination_by q.length
decreasing_by
  simp only [List.length_drop]
  omega

/-- With `drop_last = true` the drained batches concatenate to the longest
prefix of the queue whose length is a multiple of `batch_size`. -/
theorem workerRun_flatten_drop (bs : Nat) (hbs : 1 ≤ bs) (q : List Nat) :
    (workerRun bs true q).flatten = q.take (q.length / bs * bs) := by
  rw [workerRun_eq]
  by_cases hlt : q.length < bs
  · rw [if_pos ⟨hlt, Or.inl rfl⟩, Nat.div_eq_of_lt hlt]
    simp
  · have hq : q ≠ [] := by
      intro h
      subst h
      simp only [List.length_nil] at hlt
      omega
    rw [if_neg (by rintro ⟨h, -⟩; exact hlt h)]
    rw [if_neg (by rw [List.take_eq_nil_iff]; push_neg; exact ⟨by omega, hq⟩)]
    rw [List.flatten_cons, workerRun_flatten_drop bs hbs (q.drop bs), List.length_drop]
    have hle : bs ≤ q.length := le_of_not_lt hlt
    have hdiv : q.length / bs = (q.length - bs) / bs + 1 :=
      Nat.div_eq_sub_div (by omega) hle
    rw [hdiv]
    have harith : ((q.length - bs) / bs + 1) * bs = bs + (q.length - bs) / bs * bs := by
      ring
    rw [harith, List.take_add]
termination_by q.length
decreasing_by
  simp only [List.length_drop]
  have : 0 < q.length := List.length_pos.mpr hq
  omega

/-- Every drained batch is nonempty, never longer than `batch_size`, and with
`drop_last = true` has length exactly `batch_size`. -/
theorem workerRun_batch_shape (bs : Nat) (hbs : 1 ≤ bs) (dl : Bool) (q : List Nat)
    (b : List Nat) (hb : b ∈ workerRun bs dl q) :
    b ≠ [] ∧ b.length ≤ bs ∧ (dl = true → b.length = bs) := by
  rw [workerRun_eq] at hb
  split at hb
  · simp at hb
  next hcond =>
    split at hb
    · simp at hb
    next hne =>
      rcases List.mem_cons.mp hb with rfl | hb'
      · refine ⟨hne, ?_, ?_⟩
        · rw [List.length_take]; omega
        · intro hdl
          subst hdl
          have : ¬ q.length < bs := fun h => hcond ⟨h, Or.inl rfl⟩
          rw [List.length_take]; omega
      · have hq0 : q ≠ [] := by
          rw [List.take_eq_nil_iff] at hne
          push_neg at hne
          exact hne.2
        have hpos : 0 < q.length := List.length_pos.mpr hq0
        exact workerRun_batch_shape bs hbs dl (q.drop bs) b hb'
termination_by q.length
decreasing_by
  simp only [List.length_drop]
  omega

/-- A nonempty queue with `drop_last = false` always yields at least one
batch. -/
theorem workerRun_ne_nil (bs : Nat) (hbs : 1 ≤ bs) (q : List Nat) (hq : q ≠ []) :
    workerRun bs false q ≠ [] := by
  rw [workerRun_eq]
  rw [if_neg (by rintro ⟨-, h | h⟩ <;> simp_all)]
  rw [if_neg (by rw [List.take_eq_nil_iff]; push_neg; exact ⟨by omega, hq⟩)]
  exact List.cons_ne_nil _ _

/-- Every batch except the last has length exactly `batch_size`. -/
theorem workerRun_dropLast_full (bs : Nat) (hbs : 1 ≤ bs) (dl : Bool) (q : List Nat)
    (b : List Nat) (hb : b ∈ (workerRun bs dl q).dropLast) :
    b.length = bs := by
  rw [workerRun_eq] at hb
  split at hb
  · simp at hb
  next hcond =>
    split at hb
    · simp at hb
    next hne =>
      rw [List.take_eq_nil_iff] at hne
      push_neg at hne
      rcases hrest : workerRun bs dl (q.drop bs) with _ | ⟨r0, rs⟩
      · rw [hrest] at hb
        simp at hb
      · rw [hrest, List.dropLast_cons_of_ne_nil (List.cons_ne_nil r0 rs)] at hb
        rcases List.mem_cons.mp hb with rfl | hb'
        · have hlen : bs ≤ q.length := by
            by_contra h
            have hdrop : q.drop bs = [] := List.drop_eq_nil_of_le (by omega)
            rw [hdrop, workerRun_nil] at hrest
            exact List.cons_ne_nil r0 rs hrest.symm
          rw [List.length_take]; omega
        · have hpos : 0 < q.length := List.length_pos.mpr hne.2
          have hrec := workerRun_dropLast_full bs hbs dl (q.drop bs) b
          rw [hrest] at hrec
          exact hrec hb'
termination_by q.length
decreasing_by
  simp only [List.length_drop]
  omega

/-- With `drop_last = false` the final batch has length `len mod batch_size`
when that remainder is nonzero, and `batch_size` otherwise. -/
theorem workerRun_getLast_no_drop (bs : Nat) (hbs : 1 ≤ bs) (q : List Nat) (l : List Nat)
    (h : (workerRun bs false q).getLast? = some l) :
    l.length = if q.length % bs = 0 then bs else q.length % bs := by
  rw [workerRun_eq] at h
  split at h
  · simp at h
  next hcond =>
    split at h
    · simp at h
    next hne =>
      rw [List.take_eq_nil_iff] at hne
      push_neg at hne
      have hpos : 0 < q.length := List.length_pos.mpr hne.2
      rcases hrest : workerRun bs false (q.drop bs) with _ | ⟨r0, rs⟩
      · rw [hrest] at h
        simp only [List.getLast?_singleton, Option.some.injEq] at h
        have hle : q.length ≤ bs := by
          by_contra hgt
          push_neg at hgt
          exact workerRun_ne_nil bs hbs (q.drop bs)
            (by
              intro hd
              have := List.length_drop bs q
              rw [hd] at this
              simp only [List.length_nil] at this
              omega) hrest
        rw [← h, List.length_take]
        rcases Nat.lt_or_ge q.length bs with hlt | hge
        · rw [if_neg (by rw [Nat.mod_eq_of_lt hlt]; omega), Nat.mod_eq_of_lt hlt]
          omega
        · have heq : q.length = bs := le_antisymm hle hge
          rw [heq, Nat.mod_self, if_pos rfl]
          omega
      · rw [hrest, List.getLast?_cons_cons] at h
        have hlen : bs ≤ q.length := by
          by_contra hgt
          have hdrop : q.drop bs = [] := List.drop_eq_nil_of_le (by omega)
          rw [hdrop, workerRun_nil] at hrest
          exact List.cons_ne_nil r0 rs hrest.symm
        have hrec := workerRun_getLast_no_drop bs hbs (q.drop bs) l
          (by rw [hrest]; exact h)
        rw [List.length_drop] at hrec
        have hmod : (q.length - bs) % bs = q.length % bs := by
          conv_rhs => rw [← Nat.sub_add_cancel hlen]
          rw [Nat.add_mod_right]
        rw [hmod] at hrec
        exact hrec
termination_by q.length
decreasing_by
  simp only [List.length_drop]
  omega

/-- The batch at position `n` of the drain sequence is the `batch_size`-wide
slice of the queue starting at offset `n * batch_size`. -/
theorem workerRun_getElem (bs : Nat) (hbs : 1 ≤ bs) (dl : Bool) (q : List Nat)
    (n : Nat) (b : List Nat) (h : (workerRun bs dl q)[n]? = some b) :
    b = (q.drop (n * bs)).take bs := by
  rw [workerRun_eq] at h
  split at h
  · simp at h
  next hcond =>
    split at h
    · simp at h
    next hne =>
      rw [List.take_eq_nil_iff] at hne
      push_neg at hne
      have hpos : 0 < q.length := List.length_pos.mpr hne.2
      cases n with
      | zero =>
        rw [List.getElem?_cons_zero, Option.some.injEq] at h
        rw [← h]
        simp
      | succ m =>
        rw [List.getElem?_cons_succ] at h
        have hrec := workerRun_getElem bs hbs dl (q.drop bs) m b h
        rw [List.drop_drop] at hrec
        have harith : bs + m * bs = (m + 1) * bs := by ring
        rw [harith] at hrec
        exact hrec
termination_by q.length
decreasing_by
  simp only [List.length_drop]
  omega

/-- Every index inside a drained batch comes from the queue. -/
theorem workerRun_mem_subset (bs : Nat) (dl : Bool) (q : List Nat) (b : List Nat)
    (hb : b ∈ workerRun bs dl q) (i : Nat) (hi : i ∈ b) : i ∈ q := by
  rw [workerRun_eq] at hb
  split at hb
  · simp at hb
  next hcond =>
    split at hb
    · simp at hb
    next hne =>
      rw [List.take_eq_nil_iff] at hne
      push_neg at hne
      rcases List.mem_cons.mp hb with rfl | hb'
      · exact List.take_subset bs q hi
      · have hpos : 0 < q.length := List.length_pos.mpr hne.2
        have hbs0 : bs ≠ 0 := hne.1
        exact List.drop_subset bs q
          (workerRun_mem_subset bs dl (q.drop bs) b hb' i hi)
termination_by q.length
decreasing_by
  simp only [List.length_drop]
  omega

/-! Facts about `Dataset::get` and batch materialization. -/

theorem dataset_get_isSome_iff {T : Type} (d : Dataset T) (i : Nat) :
    (d.get i).isSome ↔ i < d.len := by
  unfold Dataset.get Dataset.len
  constructor
  · intro h
    by_contra hge
    rw [List.getElem?_eq_none (by omega)] at h
    simp at h
  · intro h
    rw [List.getElem?_eq_getElem h]
    rfl

theorem materializeBatch_isSome {T : Type} (d : Dataset T) (b : List Nat)
    (h : ∀ i ∈ b, i < d.len) : (materializeBatch d b).isSome := by
  induction b with
  | nil => rfl
  | cons i rest ih =>
    have hi : i < d.len := h i (List.mem_cons_self i rest)
    obtain ⟨t, ht⟩ := Option.isSome_iff_exists.mp ((dataset_get_isSome_iff d i).mpr hi)
    have hrest := ih fun j hj => h j (List.mem_cons_of_mem i hj)
    obtain ⟨ts, hts⟩ := Option.isSome_iff_exists.mp hrest
    simp [materializeBatch, ht, hts]

/-- Materialization preserves order: the `j`-th item of the produced batch is
`dataset.get` of the `j`-th drained index. -/
theorem materializeBatch_getElem {T : Type} (d : Dataset T) (b : List Nat) (l : List T)
    (h : materializeBatch d b = some l) (j : Nat) :
    l[j]? = (b[j]?).bind d.get := by
  induction b generalizing l j with
  | nil =>
    simp only [materializeBatch, Option.some.injEq] at h
    subst h
    simp
  | cons i rest ih =>
    cases hg : d.get i with
    | none => simp [materializeBatch, hg] at h
    | some t =>
      cases hm : materializeBatch d rest with
      | none => simp [materializeBatch, hg, hm] at h
      | some ts =>
        simp only [materializeBatch, hg, hm, Option.some.injEq] at h
        subst h
        cases j with
        | zero => simp [hg]
        | succ m => simp [ih ts hm m]

/-! Facts about the windowing function `gen_rnn_train_data`. -/

theorem genRnnLoop_no_panic {T : Type} (items : List T) (w s : Nat)
    (h : 1 ≤ items.length) :
    ∀ (fuel start : Nat) (acc : List (TrainData T)),
      genRnnLoop items w s fuel start acc ≠ RnnResult.panicked := by
  intro fuel
  induction fuel with
  | zero =>
    intro start acc
    simp [genRnnLoop]
  | succ f ih =>
    intro start acc
    simp only [genRnnLoop]
    rw [if_neg (by omega)]
    split
    · simp
    · exact ih _ _

theorem genRnnLoop_terminates {T : Type} (items : List T) (w s : Nat) (hs : 1 ≤ s) :
    ∀ (fuel start : Nat) (acc : List (TrainData T)), 0 < fuel →
      items.length + 1 ≤ start + fuel →
      genRnnLoop items w s fuel start acc ≠ RnnResult.timeout := by
  intro fuel
  induction fuel with
  | zero =>
    intro start acc h0 hb
    omega
  | succ f ih =>
    intro start acc h0 hb
    simp only [genRnnLoop]
    split
    · simp
    next hlen =>
      split
      · simp
      next hloop =>
        exact ih (start + s) _ (by omega) (by omega)

theorem genRnnLoop_stride_zero {T : Type} (items : List T) (w : Nat)
    (hw : w < items.length) :
    ∀ (fuel : Nat) (acc : List (TrainData T)),
      genRnnLoop items w 0 fuel 0 acc = RnnResult.timeout := by
  intro fuel
  induction fuel with
  | zero => intro acc; rfl
  | succ f ih =>
    intro acc
    simp only [genRnnLoop]
    rw [if_neg (by omega), if_neg (by omega)]
    simp only [Nat.add_zero]
    exact ih _

theorem specFrom_nil_of_stop {T : Type} (items : List T) (w s start : Nat)
    (h : ¬ start + w < items.length) :
    specFrom items w s start = [] := by
  unfold specFrom numWindowsFrom
  rw [if_neg h]
  simp

theorem specFrom_cons {T : Type} (items : List T) (w s start : Nat) (hs : 1 ≤ s)
    (h : start + w < items.length) :
    specFrom items w s start = pairAt items w start :: specFrom items w s (start + s) := by
  unfold specFrom numWindowsFrom
  rw [if_pos h]
  by_cases h2 : start + s + w < items.length
  · rw [if_pos h2]
    have key : (items.length - w - 1 - start) / s
        = (items.length - w - 1 - (start + s)) / s + 1 := by
      have hle : s ≤ items.length - w - 1 - start := by omega
      rw [Nat.div_eq_sub_div (by omega) hle]
      congr 2
      omega
    rw [key, List.range_succ_eq_map, List.map_cons, List.map_map]
    congr 1
    · simp [pairAt]
    · apply List.map_congr_left
      intro k hk
      simp only [Function.comp_apply]
      congr 1
      rw [Nat.succ_mul]
      ring
  · rw [if_neg h2]
    have hz : (items.length - w - 1 - start) / s = 0 := Nat.div_eq_of_lt (by omega)
    rw [hz, show List.range 1 = [0] from rfl]
    simp

theorem genRnnLoop_eq_spec {T : Type} (items : List T) (w s : Nat) (hs : 1 ≤ s)
    (hN : 1 ≤ items.length) :
    ∀ (fuel start : Nat) (acc : List (TrainData T)), 0 < fuel →
      items.length + 1 ≤ start + fuel →
      genRnnLoop items w s fuel start acc
        = RnnResult.ok (acc ++ specFrom items w s start) := by
  intro fuel
  induction fuel with
  | zero =>
    intro start acc h0 hb
    omega
  | succ f ih =>
    intro start acc h0 hb
    simp only [genRnnLoop]
    rw [if_neg (by omega)]
    by_cases hstop : start + w > items.length - 1
    · rw [if_pos hstop, specFrom_nil_of_stop items w s start (by omega), List.append_nil]
    · rw [if_neg hstop]
      have hlt : start + w < items.length := by omega
      rw [ih (start + s) _ (by omega) (by omega),
        specFrom_cons items w s start hs hlt]
      congr 1
      simp [pairAt, List.append_assoc]

theorem specFrom_zero {T : Type} (items : List T) (w s : Nat) :
    specFrom items w s 0 = specWindowPairs items w s := by
  unfold specFrom specWindowPairs numWindowsFrom numWindows pairAt
  simp

theorem genRnnTrainData_eq_spec {T : Type} (items : List T) (w s : Nat) (hs : 1 ≤ s)
    (hN : 1 ≤ items.length) :
    genRnnTrainData items w s (items.length + 1)
      = RnnResult.ok (specWindowPairs items w s) := by
  unfold genRnnTrainData
  rw [genRnnLoop_eq_spec items w s hs hN (items.length + 1) 0 [] (by omega) (by omega),
    List.nil_append, specFrom_zero]

/-! The claims. -/

/-- C1: for every dataset length `len`, every initial queue that is a
permutation of `0..len` (covering both settings of `shuffle`), and every
configuration with `drop_last = false` and `batch_size >= 1`, the
concatenation of all index batches emitted by the DataLoader's worker pool
is a permutation of `{0, ..., len-1}`: each index appears in exactly one
emitted batch, with no duplicates and no omissions. -/
theorem claim_c1_coverage_no_drop_last (len bs : Nat) (q : List Nat) (hbs : 1 ≤ bs)
    (hq : q.Perm (List.range len)) :
    ((workerRun bs false q).flatten).Perm (List.range len) := by
  rw [workerRun_flatten_no_drop bs hbs q]
  exact hq

theorem claim_c1_witness :
    1 ≤ 10 ∧ ((workerRun 10 false (List.range 25)).flatten).Perm (List.range 25) :=
  ⟨by decide,
    claim_c1_coverage_no_drop_last 25 10 (List.range 25) (by decide) (List.Perm.refl _)⟩

/-- C2: for every dataset length `len`, every initial queue that is a
permutation of `0..len`, and every configuration with `drop_last = true` and
`batch_size >= 1`, the total count of indices emitted equals
`(len / batch_size) * batch_size`, every emitted batch has length exactly
`batch_size`, and the remaining `len mod batch_size` indices left in the
queue are never delivered in any batch. -/
theorem claim_c2_drop_last_semantics (len bs : Nat) (q : List Nat) (hbs : 1 ≤ bs)
    (hq : q.Perm (List.range len)) :
    ((workerRun bs true q).flatten).length = len / bs * bs
    ∧ (∀ b ∈ workerRun bs true q, b.length = bs)
    ∧ (∀ i ∈ q.drop (len / bs * bs), i ∉ (workerRun bs true q).flatten) := by
  have hlen : q.length = len := by rw [hq.length_eq, List.length_range]
  refine ⟨?_, ?_, ?_⟩
  · rw [workerRun_flatten_drop bs hbs q, List.length_take, hlen]
    have := Nat.div_mul_le_self len bs
    omega
  · intro b hb
    exact (workerRun_batch_shape bs hbs true q b hb).2.2 rfl
  · intro i hid hmem
    rw [workerRun_flatten_drop bs hbs q, hlen] at hmem
    have hnodup : q.Nodup := hq.symm.nodup (List.nodup_range len)
    exact List.disjoint_take_drop hnodup le_rfl hmem hid

theorem claim_c2_witness :
    1 ≤ 10
    ∧ (((workerRun 10 true (List.range 25)).flatten).length = 25 / 10 * 10
      ∧ (∀ b ∈ workerRun 10 true (List.range 25), b.length = 10)
      ∧ (∀ i ∈ (List.range 25).drop (25 / 10 * 10),
          i ∉ (workerRun 10 true (List.range 25)).flatten)) :=
  ⟨by decide,
    claim_c2_drop_last_semantics 25 10 (List.range 25) (by decide) (List.Perm.refl _)⟩

/-- C3 counterexample: constructing a loader over a 5-item dataset with
`batch_size = 0` does not fail and is not rejected: `DataLoader::new` has no
error path at all (its signature returns `Self` unconditionally and it never
inspects `batch_size` before spawning workers), and the resulting loader
simply emits no batches — each spawned worker drains an empty slice on its
first iteration and terminates. -/
theorem claim_c3_counterexample : DataLoader.new (List.range 5) 0 false = [] := rfl

/-- C3 (amended): constructing a DataLoader with `batch_size = 0` does NOT
fail with an `InvalidConfiguration` error — `DataLoader::new` performs no
validation and returns a loader handle unconditionally, spawning its workers;
every worker's first drain yields an empty slice, so each terminates
immediately and the loader emits no batches, for every queue and every
`drop_last` setting. -/
theorem claim_c3_zero_batch_size (q : List Nat) (dl : Bool) :
    DataLoader.new q 0 dl = [] :=
  workerRun_zero_batch dl q

/-- C4: for every configuration with `batch_size >= 1` and every queue, no
emitted batch is empty or longer than `batch_size`; every batch except
possibly the final one has length exactly `batch_size`; with
`drop_last = true` every batch (including the final one) has length exactly
`batch_size`; and with `drop_last = false` the final batch has length
`len mod batch_size` (or `batch_size` when that remainder is 0). -/
theorem claim_c4_batch_sizing (bs : Nat) (dl : Bool) (q : List Nat) (hbs : 1 ≤ bs) :
    (∀ b ∈ workerRun bs dl q, 0 < b.length ∧ b.length ≤ bs)
    ∧ (∀ b ∈ (workerRun bs dl q).dropLast, b.length = bs)
    ∧ (dl = true → ∀ b ∈ workerRun bs dl q, b.length = bs)
    ∧ (dl = false → ∀ l, (workerRun bs dl q).getLast? = some l →
        l.length = if q.length % bs = 0 then bs else q.length % bs) := by
  refine ⟨?_, ?_, ?_, ?_⟩
  · intro b hb
    obtain ⟨hne, hle, -⟩ := workerRun_batch_shape bs hbs dl q b hb
    exact ⟨List.length_pos.mpr hne, hle⟩
  · intro b hb
    exact workerRun_dropLast_full bs hbs dl q b hb
  · intro hdl b hb
    exact (workerRun_batch_shape bs hbs dl q b hb).2.2 hdl
  · intro hdl l hl
    subst hdl
    exact workerRun_getLast_no_drop bs hbs q l hl

theorem claim_c4_witness :
    1 ≤ 10
    ∧ ((∀ b ∈ workerRun 10 false (List.range 25), 0 < b.length ∧ b.length ≤ 10)
      ∧ (∀ b ∈ (workerRun 10 false (List.range 25)).dropLast, b.length = 10)
      ∧ (false = true → ∀ b ∈ workerRun 10 false (List.range 25), b.length = 10)
      ∧ (false = false → ∀ l, (workerRun 10 false (List.range 25)).getLast? = some l →
          l.length = if (List.range 25).length % 10 = 0 then 10
            else (List.range 25).length % 10)) :=
  ⟨by decide, claim_c4_batch_sizing 10 false (List.range 25) (by decide)⟩

/-- C5: for EVERY initial queue `q` (shuffled or not), the `n`-th emitted
batch is exactly the slice of `q` drained from the front at offset
`n * batch_size`, in drained order; the `j`-th item of the materialized
batch is `dataset.get` of the `j`-th drained index (so item order matches
drained index order); and in particular with `shuffle = false` (initial
queue `0..len` in order) the `n`-th emitted batch consists of the
consecutive ascending indices `n*batch_size, n*batch_size + 1, ...` of the
original dataset. -/
theorem claim_c5_intra_batch_order (T : Type) (data : List T) (bs : Nat) (dl : Bool)
    (q : List Nat) (n j : Nat) (b : List Nat) (l : List T) (hbs : 1 ≤ bs)
    (hb : (workerRun bs dl q)[n]? = some b) :
    (b = (q.drop (n * bs)).take bs)
    ∧ (materializeBatch (Dataset.new data) b = some l →
        l[j]? = (b[j]?).bind (Dataset.new data).get)
    ∧ (q = List.range data.length → j < b.length → b[j]? = some (n * bs + j)) := by
  have hbeq := workerRun_getElem bs hbs dl q n b hb
  refine ⟨hbeq, ?_, ?_⟩
  · intro hl
    exact materializeBatch_getElem (Dataset.new data) b l hl j
  · intro hrange hj
    subst hrange
    subst hbeq
    have hjlt : j < bs ∧ n * bs + j < data.length := by
      rw [List.length_take, List.length_drop, List.length_range] at hj
      omega
    rw [List.getElem?_take_of_lt hjlt.1, List.getElem?_drop]
    simp [List.getElem?_range, hjlt.2]

theorem claim_c5_witness :
    (([2, 0] : List Nat) = (([2, 0, 1] : List Nat).drop (0 * 2)).take 2)
    ∧ (([30, 10] : List Nat)[0]?
        = ((([2, 0] : List Nat)[0]?).bind ((Dataset.new ([10, 20, 30] : List Nat)).get)))
    ∧ (([2, 3] : List Nat)[0]? = some (1 * 2 + 0)) := by
  have h := claim_c5_intra_batch_order Nat [10, 20, 30] 2 false [2, 0, 1] 0 0 [2, 0] [30, 10]
    (by decide) (by decide)
  have h2 := claim_c5_intra_batch_order Nat [10, 20, 30, 40] 2 false (List.range 4) 1 0
    [2, 3] [30, 40] (by decide) (by decide)
  exact ⟨h.1, h.2.1 (by decide), h2.2.2 (by decide) (by decide)⟩

/-- C6 counterexample: on the empty input (length 0) the claim's windowing
formula yields the empty pair list, but `gen_rnn_train_data` panics on the
`items.len() - 1` underflow instead of returning it, so the claim is false
for inputs of length 0. -/
theorem claim_c6_counterexample :
    genRnnTrainData ([] : List Nat) 4 1 1 = RnnResult.panicked
    ∧ specWindowPairs ([] : List Nat) 4 1 = [] :=
  ⟨rfl, rfl⟩

/-- C6 (amended): for every input sequence of length `N >= 1`, window size
`w`, and stride `s >= 1`, `gen_rnn_train_data` returns exactly the pairs
indexed `k = 0, 1, 2, ...` with `feature = items[k*s .. k*s+w)` and
`label = items[k*s+1 .. k*s+w+1)`, stopping before the first `k` with
`k*s + w >= N` (on the empty input the function panics instead of returning
the empty result, see the counterexample). -/
theorem claim_c6_windowing (T : Type) (items : List T) (w s : Nat) (hs : 1 ≤ s)
    (hN : 1 ≤ items.length) :
    genRnnTrainData items w s (items.length + 1)
      = RnnResult.ok (specWindowPairs items w s) :=
  genRnnTrainData_eq_spec items w s hs hN

theorem claim_c6_witness :
    1 ≤ 2 ∧ 1 ≤ (List.range 26).length
    ∧ genRnnTrainData (List.range 26) 4 2 ((List.range 26).length + 1)
        = RnnResult.ok (specWindowPairs (List.range 26) 4 2)
    ∧ (specWindowPairs (List.range 26) 4 2)[0]? = some ⟨[0, 1, 2, 3], [1, 2, 3, 4]⟩
    ∧ numWindows 26 4 2 = 11 :=
  ⟨by decide, by decide, claim_c6_windowing Nat (List.range 26) 4 2 (by decide) (by decide),
    by decide, by decide⟩

/-- C7 counterexample: on the input `[0, 1]` (length 2 >= 1) with window 1
and stride 0 the loop of `gen_rnn_train_data` never advances, so the
function does not return at all: the claim's "for every input of
length >= 1 the subtraction is safe and the function returns normally" is
false as stated — returning normally additionally needs `stride >= 1`. -/
theorem claim_c7_counterexample : genRnnDiverges ([0, 1] : List Nat) 1 0 :=
  fun fuel => genRnnLoop_stride_zero ([0, 1] : List Nat) 1 (by decide) fuel []

/-- C7 (amended): the loop bound of `gen_rnn_train_data` is computed as
`items.len() - 1`, which underflows on the empty input: there the function
panics instead of returning the empty result (for every window and stride);
for every input of length >= 1 the subtraction is safe — no run can reach
the panic, whatever the stride, start position and fuel — and for every
stride >= 1 the function returns normally. -/
theorem claim_c7_short_input (T : Type) (items : List T) (w s fuel start : Nat)
    (acc : List (TrainData T)) :
    genRnnTrainData ([] : List T) w s 1 = RnnResult.panicked
    ∧ (1 ≤ items.length → genRnnLoop items w s fuel start acc ≠ RnnResult.panicked)
    ∧ (1 ≤ items.length → 1 ≤ s →
        ∃ res, genRnnTrainData items w s (items.length + 1) = RnnResult.ok res) := by
  refine ⟨rfl, ?_, ?_⟩
  · intro hN
    exact genRnnLoop_no_panic items w s hN fuel start acc
  · intro hN hs
    exact ⟨specWindowPairs items w s, genRnnTrainData_eq_spec items w s hs hN⟩

theorem claim_c7_witness :
    genRnnTrainData ([] : List Nat) 1 1 1 = RnnResult.panicked
    ∧ genRnnLoop ([5, 6] : List Nat) 1 1 3 0 [] ≠ RnnResult.panicked
    ∧ ∃ res, genRnnTrainData ([5, 6] : List Nat) 1 1 3 = RnnResult.ok res := by
  have h := claim_c7_short_input Nat [5, 6] 1 1 3 0 []
  exact ⟨h.1, h.2.1 (by decide), h.2.2 (by decide) (by decide)⟩

/-- C8: `Dataset::get(i)` returns an item exactly when `i < len()` (and
panics with an out-of-range error exactly when `i >= len()`), and for every
initial queue that is a permutation of `0..len` (shuffled or not) every
index in every batch drained by the scheduler is in range, so the worker's
materialization of the batch never hits the error branch. -/
theorem claim_c8_dataset_get (T : Type) (d : Dataset T) (i bs : Nat) (dl : Bool)
    (q : List Nat) (b : List Nat) :
    ((d.get i).isSome ↔ i < d.len)
    ∧ (q.Perm (List.range d.len) → b ∈ workerRun bs dl q →
        (materializeBatch d b).isSome) := by
  refine ⟨dataset_get_isSome_iff d i, ?_⟩
  intro hq hb
  apply materializeBatch_isSome
  intro j hj
  have hmem : j ∈ q := workerRun_mem_subset bs dl q b hb j hj
  exact List.mem_range.mp (hq.mem_iff.mp hmem)

theorem claim_c8_witness :
    (((Dataset.new ([3, 4, 5] : List Nat)).get 1).isSome
      ↔ 1 < (Dataset.new ([3, 4, 5] : List Nat)).len)
    ∧ (materializeBatch (Dataset.new ([3, 4, 5] : List Nat)) [2, 0]).isSome := by
  have h := claim_c8_dataset_get Nat (Dataset.new [3, 4, 5]) 1 2 false [2, 0, 1] [2, 0]
  exact ⟨h.1, h.2 (by decide) (by decide)⟩

/-- C9 counterexample: when the consuming end has been dropped
(`receiverAlive = false`), the worker's `sender.send(batch).unwrap()` at
lib.rs line 77 panics (`none`) rather than silently discarding the batch and
continuing normally (which would be `some ()`), and the panic re-surfaces
when the loader's `Drop` joins that worker with `handle.join().unwrap()`. -/
theorem claim_c9_counterexample :
    workerSend false ([1, 2] : List Nat) ≠ some ()
    ∧ loaderDropJoin [workerSend false ([1, 2] : List Nat)] = none :=
  ⟨fun h => Option.noConfusion h, rfl⟩

/-- C9 (amended): a send on the batch channel after the consuming end has
been dropped is NOT a non-fatal silent discard: the worker calls `unwrap` on
the send result and panics, and the panic propagates to the caller when the
loader handle's `Drop` joins the worker with `handle.join().unwrap()`; a
send while the receiver is alive succeeds. -/
theorem claim_c9_send_failure (α : Type) (b b' : α) :
    workerSend false b = none
    ∧ loaderDropJoin [workerSend false b] = none
    ∧ workerSend true b' = some () :=
  ⟨rfl, rfl, rfl⟩

/-- C10: `gen_rnn_train_data` terminates for every input sequence and every
stride `s >= 1` (the start position strictly increases each iteration, and a
fuel budget of `items.len() + 1` loop iterations always completes the run),
but for stride `s = 0` together with any window size `w < items.len()` the
loop never advances and the function does not terminate. -/
theorem claim_c10_termination (T : Type) (items : List T) (w s : Nat) :
    (1 ≤ s → genRnnTrainData items w s (items.length + 1) ≠ RnnResult.timeout)
    ∧ (w < items.length → genRnnDiverges items w 0) := by
  constructor
  · intro hs
    exact genRnnLoop_terminates items w s hs (items.length + 1) 0 [] (by omega) (by omega)
  · intro hw
    exact fun fuel => genRnnLoop_stride_zero items w hw fuel []

theorem claim_c10_witness :
    genRnnTrainData ([0, 1, 2] : List Nat) 1 2 4 ≠ RnnResult.timeout
    ∧ genRnnDiverges ([0, 1, 2] : List Nat) 1 0 := by
  have h := claim_c10_termination Nat [0, 1, 2] 1 2
  have h0 := claim_c10_termination Nat [0, 1, 2] 1 0
  exact ⟨h.1 (by decide), h0.2 (by decide)⟩

end DataLoaderSpec
